import Mathlib

/-!
# Verification of `hades_cheat.py` against its specification

Shallow embedding of the core of the Hades Cheat Injector:
the transformation catalog (the `Action` class hierarchy), the
byte-faithful text channel (`TextProcessor`), and the macro line
parser / substitution driver (`App.macro_re`, `App.process_file`).

Modelling conventions:
* Python strings are `List Char`; file bytes are `List Nat`.
* Python floats are modelled as exact rationals (`ℚ`): the numeric
  claims under check concern the exact arithmetic the code writes
  down (`float(default) * scale`, `math.floor(new + 0.5)`,
  `round(x, n)`), not IEEE-754 rounding noise.
* Fallible Python operations (`float(s)`, `int(s)`, `raise`) are
  modelled with `Option` / `Except`.
-/

namespace HadesCheat

/-- Characters matched by the macro-name regex class `[a-z_]`. -/
def isNameChar (c : Char) : Bool := ('a' ≤ c && c ≤ 'z') || c = '_'

/-- ASCII decimal digit test. -/
def isDigitCh (c : Char) : Bool := '0' ≤ c && c ≤ '9'

/-- Numeric value of a most-significant-first digit string. -/
def digitsToNat (l : List Char) : ℕ :=
  l.foldl (fun a c => a * 10 + (c.toNat - 48)) 0

/-- Model of CPython `int(s)` on the string forms used by the templates:
an optional sign followed by a nonempty digit run.  (Surrounding
whitespace, underscores and other exotic accepted forms are not modelled;
every string this model accepts is accepted by CPython with the same
value, and the strings the theorems reject — such as the empty string —
are rejected by CPython as well.) -/
def pyInt? (s : List Char) : Option ℤ :=
  let sgn : ℤ := match s with | '-' :: _ => -1 | _ => 1
  let s1 : List Char := match s with | '-' :: t => t | '+' :: t => t | _ => s
  if s1 ≠ [] ∧ s1.all isDigitCh then some (sgn * digitsToNat s1) else none

/-- Exponent tail of a float literal: `e`/`E` already consumed. -/
def floatExpTail (mant : ℚ) (t : List Char) : Option ℚ :=
  let es : ℤ := match t with | '-' :: _ => -1 | _ => 1
  let t1 : List Char := match t with | '-' :: u => u | '+' :: u => u | _ => t
  let ds := t1.takeWhile isDigitCh
  if ds = [] ∨ t1.drop ds.length ≠ [] then none
  else some (mant * (10 : ℚ) ^ (es * (digitsToNat ds : ℤ)))

/-- Model of CPython `float(s)` on the decimal forms used by the
templates: optional sign, digits with optional fractional part (at
least one mantissa digit), optional exponent.  As with `pyInt?`, this
is a sound restriction of CPython: accepted strings get the exact
rational value of the decimal literal, and strings rejected here that
matter to the theorems (e.g. the empty string) are rejected by
CPython's `float` with a `ValueError` too. -/
def pyFloat? (s : List Char) : Option ℚ :=
  let sgn : ℚ := match s with | '-' :: _ => -1 | _ => 1
  let s1 : List Char := match s with | '-' :: t => t | '+' :: t => t | _ => s
  let ip := s1.takeWhile isDigitCh
  let s2 := s1.drop ip.length
  let fp : List Char := match s2 with | '.' :: t => t.takeWhile isDigitCh | _ => []
  let s3 : List Char := match s2 with
    | '.' :: t => t.drop (t.takeWhile isDigitCh).length
    | _ => s2
  if ip = [] ∧ fp = [] then none
  else
    let mant : ℚ := sgn * ((digitsToNat ip : ℚ) + (digitsToNat fp : ℚ) / (10 : ℚ) ^ fp.length)
    match s3 with
    | [] => some mant
    | 'e' :: t => floatExpTail mant t
    | 'E' :: t => floatExpTail mant t
    | _ => none

/-- A Python value as it can flow out of an `Action` into
`'{}'.format(...)`: an int, a float, or a string. -/
inductive Value where
  | vInt (n : ℤ)
  | vFloat (q : ℚ)
  | vStr (s : List Char)
deriving DecidableEq

/-- A Python number (int or float), used for configured numeric
parameters whose int/float distinction is observable in the output
(e.g. `max(float(default), self.min_chance)` returns `min_chance`
itself, with its own type, when it wins). -/
inductive PyNum where
  | pint (n : ℤ)
  | pfloat (q : ℚ)
deriving DecidableEq

/-- Numeric value of a `PyNum`. -/
def PyNum.toQ : PyNum → ℚ
  | .pint n => n
  | .pfloat q => q

/-- The `Value` a `PyNum` turns into when returned from an action. -/
def PyNum.toValue : PyNum → Value
  | .pint n => .vInt n
  | .pfloat q => .vFloat q

/-- `str()` of a Python int. -/
def intStr (n : ℤ) : List Char :=
  (if n < 0 then ['-'] else []) ++ Nat.toDigits 10 n.natAbs

/-- Multiplicity of `p` in `n`, computed with explicit fuel. -/
def multFuel : ℕ → ℕ → ℕ → ℕ
  | 0, _, _ => 0
  | fuel + 1, p, n => if 2 ≤ p ∧ n ≠ 0 ∧ n % p = 0 then multFuel fuel p (n / p) + 1 else 0

/-- Multiplicity of `p` in `n` (`n` itself is always enough fuel). -/
def multOf (p n : ℕ) : ℕ := multFuel n p n

/-- Render the integer `m` with exactly `k` digits after a decimal
point (zero-padding the integer part to at least one digit). -/
def decDigits (m : ℤ) (k : ℕ) : List Char :=
  let ds := Nat.toDigits 10 m.natAbs
  let ds := (List.replicate (k + 1 - ds.length) '0') ++ ds
  (if m < 0 then ['-'] else []) ++ ds.take (ds.length - k) ++ '.' :: ds.drop (ds.length - k)

/-- `str()` of a Python float, under the floats-as-exact-rationals
abstraction.  CPython prints the shortest decimal string that denotes
the value; for a rational with a finite decimal expansion (the only
values the embedded code ever formats: every float it prints has
passed through `round(x, n)`) that is the minimal exact decimal form,
with at least one digit after the point (`str(13.0) = '13.0'`).
Rationals without a finite decimal expansion cannot be float values;
for totality they are rendered truncated to 17 places (unused). -/
def pyFloatStr (q : ℚ) : List Char :=
  let a := multOf 2 q.den
  let b := multOf 5 q.den
  if q.den = 2 ^ a * 5 ^ b then
    let k := max 1 (max a b)
    decDigits (q.num * (10 : ℤ) ^ k / (q.den : ℤ)) k
  else
    decDigits (q.num * (10 : ℤ) ^ 17 / (q.den : ℤ)) 17

/-- `str()` of a `Value`, as applied by `'{}{}{}'.format(start, v, end)`. -/
def strOfValue : Value → List Char
  | .vInt n => intStr n
  | .vFloat q => pyFloatStr q
  | .vStr s => s

/-- Round to the nearest integer, ties to even: the rounding CPython's
`round` performs on the exact value. -/
def roundHalfEven (x : ℚ) : ℤ :=
  let f := ⌊x⌋
  let r := x - f
  if r < 1 / 2 then f else if 1 / 2 < r then f + 1 else if f % 2 = 0 then f else f + 1

/-- Model of CPython `round(x, p)` for `p ≥ 0` digits: nearest multiple
of `10 ^ (-p)`, ties to even. -/
def roundDec (p : ℕ) (x : ℚ) : ℚ :=
  (roundHalfEven (x * (10 : ℚ) ^ p) : ℚ) / (10 : ℚ) ^ p

/-- Number of characters after the first `.` of a rendered value
(0 when there is no point): how many decimal places the text shows. -/
def decimalCount (s : List Char) : ℕ :=
  ((s.dropWhile (fun c => c ≠ '.')).drop 1).length

/-! ## Errors -/

/-- The uncaught exceptions the embedded code can raise:
`RuntimeError(msg)` and `ValueError` (from `float(s)` / `int(s)`,
carrying the offending string). -/
inductive PyErr where
  | runtimeError (msg : List Char)
  | valueError (offending : List Char)
deriving DecidableEq

/-- `float(s)` as the fallible operation the actions invoke. -/
def floatConv (s : List Char) : Except PyErr ℚ :=
  match pyFloat? s with
  | some q => .ok q
  | none => .error (.valueError s)

/-- `int(s)` as the fallible operation the actions invoke. -/
def intConv (s : List Char) : Except PyErr ℤ :=
  match pyInt? s with
  | some n => .ok n
  | none => .error (.valueError s)

/-! ## The Action hierarchy (transformation catalog entries) -/

/-- The five concrete behaviours of the `Action` subclasses.
`scaleInt`/`scaleFloat` store the effective factor (the constructors
apply `inverse` before storing, see `mkScaleInt`/`mkScaleFloat`). -/
inductive ActKind where
  | alwaysDefault
  | scaleInt (scale : ℚ)
  | scaleFloat (scale : ℚ) (precision : ℕ)
  | hardcode (v : Value)
  | godMode (startPct endPct : ℚ) (steps : ℤ)
  | fishing (minChance minRooms : PyNum)
deriving DecidableEq

/-- An `Action` instance: a behaviour plus the `use_default` flag. -/
structure Action where
  kind : ActKind
  useDefault : Bool
deriving DecidableEq

/-- `ActionScaleInt.__init__`: `inverse = True` stores `1/scale`. -/
def mkScaleInt (scale : ℚ) (inverse : Bool) (useDefault : Bool) : Action :=
  ⟨.scaleInt (if inverse then 1 / scale else scale), useDefault⟩

/-- `ActionScaleFloat.__init__`. -/
def mkScaleFloat (scale : ℚ) (inverse : Bool) (precision : ℕ) (useDefault : Bool) : Action :=
  ⟨.scaleFloat (if inverse then 1 / scale else scale) precision, useDefault⟩

/-- `ActionDefault()`: passes `use_default = True` to the base class. -/
def defaultAction : Action := ⟨.alwaysDefault, true⟩

def gmBase : List Char := String.toList "godmode_base_scale"
def gmPer : List Char := String.toList "godmode_per_death"
def gmCap : List Char := String.toList "godmode_death_cap"
def fChance : List Char := String.toList "fishing_chance"
def fSpace : List Char := String.toList "fishing_room_space"

/-- The `_process` methods of the concrete `Action` subclasses.
* `scaleInt`: `math.floor(float(default) * scale + 0.5)` — a Python int.
* `scaleFloat`: `round(float(default) * scale, precision)` — a float.
* `hardcode`: the configured constant, any type.
* `godMode`: dispatch on the three god-mode names; the per-death step
  is `round((end_pct - start_pct) / steps, 6)` (computed at `__init__`
  in the source; pure, so computed here at use).  Any other name raises
  `RuntimeError`.
* `fishing`: `max(float(default), min_chance)` for `fishing_chance`
  and `min(int(default), min_rooms)` for `fishing_room_space` (Python
  `max`/`min` return the first argument on ties, preserving its type);
  any other name raises `RuntimeError`. -/
def processRaw (k : ActKind) (name dflt : List Char) : Except PyErr Value :=
  match k with
  | .alwaysDefault => .ok (.vStr dflt)
  | .scaleInt sc =>
      (floatConv dflt).bind fun q => .ok (.vInt ⌊q * sc + 1 / 2⌋)
  | .scaleFloat sc p =>
      (floatConv dflt).bind fun q => .ok (.vFloat (roundDec p (q * sc)))
  | .hardcode v => .ok v
  | .godMode sp ep st =>
      if name = gmBase then .ok (.vFloat sp)
      else if name = gmPer then .ok (.vFloat (roundDec 6 ((ep - sp) / (st : ℚ))))
      else if name = gmCap then .ok (.vInt st)
      else .error (.runtimeError (String.toList "Unknown GodMode macro name: " ++ name))
  | .fishing mc mr =>
      if name = fChance then
        (floatConv dflt).bind fun q =>
          .ok (if mc.toQ ≤ q then .vFloat q else mc.toValue)
      else if name = fSpace then
        (intConv dflt).bind fun n =>
          .ok (if (n : ℚ) ≤ mr.toQ then .vInt n else mr.toValue)
      else .error (.runtimeError (String.toList "Unknown Fishing macro name: " ++ name))

/-- `Action.process`: when `use_default` is set the default string is
returned unchanged, otherwise `_process` runs. -/
def Action.process (a : Action) (name dflt : List Char) : Except PyErr Value :=
  if a.useDefault then .ok (.vStr dflt) else processRaw a.kind name dflt

/-! ## The macro regex

`App.macro_re` is
`^(?P<start>.*)@(?P<name>[a-z_]+)\|(?P<default>.*?)@(?P<end>.*)$`,
used with `re.match`.  Backtracking semantics of the Python engine:

* `start` is greedy, so opening-`@` candidates are tried from the
  rightmost `@` leftwards, and the first candidate at which the rest
  of the pattern matches wins;
* `name` is a greedy `[a-z_]+`; since `|` is not a name character,
  shrinking the maximal run can never reach the required `\|`, so the
  attempt at a given `@` succeeds only with the maximal run followed
  directly by `|`;
* `default` is lazy, so it is the text up to the *first* later `@`
  (`.` cannot cross a newline, and `(?P<end>.*)$` fails only on an
  interior newline, which no longer default could repair);
* `end` is `.*$`: the remainder, which must contain no newline other
  than, possibly, a final one that `$` matches in front of. -/

/-- One regex match: the four named groups. -/
structure MacroMatch where
  start : List Char
  name : List Char
  dflt : List Char
  after : List Char
deriving DecidableEq

/-- Split at the first occurrence of `c`, dropping it. -/
def splitFirstAt (c : Char) : List Char → Option (List Char × List Char)
  | [] => none
  | x :: xs =>
      if x = c then some ([], xs)
      else (splitFirstAt c xs).map fun p => (x :: p.1, p.2)

/-- Match `(?P<end>.*)$` against the text after the closing `@`:
everything, provided any newline in it is a single final one (which
`$` matches in front of without consuming). -/
def endGroup (e : List Char) : Option (List Char) :=
  if e.contains '\n' then
    if e.getLast? = some '\n' ∧ (e.dropLast.contains '\n') = false
    then some e.dropLast else none
  else some e

/-- Attempt the tail `(?P<name>[a-z_]+)\|(?P<default>.*?)@(?P<end>.*)$`
against the text following a candidate opening `@`: the name group is
the maximal `[a-z_]` run (nonempty, followed directly by `|`), the
default the text up to the first later `@`.  Returns the match with an
empty `start` group. -/
def attemptAt (rest : List Char) : Option MacroMatch :=
  if rest.takeWhile isNameChar = [] then none
  else
    match rest.drop (rest.takeWhile isNameChar).length with
    | x :: rest3 =>
        if x = '|' then
          match splitFirstAt '@' rest3 with
          | some (d, e) =>
              if d.contains '\n' then none
              else
                match endGroup e with
                | some e2 => some ⟨[], rest.takeWhile isNameChar, d, e2⟩
                | none => none
          | none => none
        else none
    | [] => none

/-- The backtracking search over opening-`@` candidates, rightmost
first: a match found in the tail (a later `@`) takes priority; the
head position is attempted only if every later one fails, and only
when the head character is `@`.  A head character inside the `start`
group must not be a newline (`.` does not match `\n`). -/
def macroCore : List Char → Option MacroMatch
  | [] => none
  | c :: rest =>
      match macroCore rest with
      | some m => if c = '\n' then none else some ⟨c :: m.start, m.name, m.dflt, m.after⟩
      | none => if c = '@' then attemptAt rest else none

/-- `App.macro_re.match(line)`. -/
def pyMatch (s : List Char) : Option MacroMatch :=
  let body := if s.getLast? = some '\n' then s.dropLast else s
  if body.contains '\n' then none else macroCore body

/-! ## The byte-faithful text channel (`TextProcessor`)

A source file is presented to the model as the character content the
Python `open()` call decodes (for a `UTF-8-SIG` source this includes
the BOM as a leading U+FEFF, exactly as the code sees it, since the
file is opened with plain `utf-8`, not `utf-8-sig`), together with the
label and confidence `chardet` reported for its first kilobyte. -/

/-- UTF-8 encoding of one character (by code point). -/
def utf8CharBytes (c : Char) : List ℕ :=
  let n := c.toNat
  if n < 128 then [n]
  else if n < 2048 then [192 + n / 64, 128 + n % 64]
  else if n < 65536 then [224 + n / 4096, 128 + (n / 64) % 64, 128 + n % 64]
  else [240 + n / 262144, 128 + (n / 4096) % 64, 128 + (n / 64) % 64, 128 + n % 64]

/-- `text.encode(encoding)` for the two supported encodings; for
`ascii` the bytes are the code points (the templates are 7-bit). -/
def encodeText (utf8 : Bool) (s : List Char) : List ℕ :=
  if utf8 then (s.map utf8CharBytes).flatten else s.map Char.toNat

/-- `codecs.BOM_UTF8`. -/
def bomUtf8 : List ℕ := [239, 187, 191]

def sigLabel : List Char := String.toList "UTF-8-SIG"
def asciiLabel : List Char := String.toList "ascii"

/-- Universal-newline translation performed by text-mode reading:
`\r\n` and lone `\r` both become `\n`. -/
def univNl : List Char → List Char
  | [] => []
  | '\r' :: '\n' :: rest => '\n' :: univNl rest
  | '\r' :: rest => '\n' :: univNl rest
  | c :: rest => c :: univNl rest

/-- The terminator of the first line of the raw character stream, as
`df.newlines` reports it after one `readline()`: the first `\r\n`,
`\r` or `\n` encountered; `none` when the file contains no terminator
at all. -/
def detectNewline : List Char → Option (List Char)
  | [] => none
  | '\r' :: '\n' :: _ => some ['\r', '\n']
  | '\r' :: _ => some ['\r']
  | '\n' :: _ => some ['\n']
  | _ :: rest => detectNewline rest

/-- Text-mode iteration over a (already newline-translated) stream:
each line keeps its trailing `\n`; a final segment without one is a
line of its own; no empty final line. -/
def pyLinesAux : List Char → List Char → List (List Char)
  | [], acc => if acc = [] then [] else [acc.reverse]
  | c :: rest, acc =>
      if c = '\n' then (acc.reverse ++ ['\n']) :: pyLinesAux rest []
      else pyLinesAux rest (c :: acc)

def pyLines (s : List Char) : List (List Char) := pyLinesAux s []

/-- The state `TextProcessor.__init__` builds: normalized encoding,
BOM bytes to replay, encoded newline bytes, and the materialized
logical lines (`self.data`). -/
structure TPState where
  utf8 : Bool
  bom : Option (List ℕ)
  newline : List ℕ
  data : List (List Char)
deriving DecidableEq

/-- `TextProcessor.__init__`.  In source order: reject detection
confidence `< 0.9`; map the label (`UTF-8-SIG` → utf-8 with BOM,
`ascii` → ascii, anything else fatal); reject a file with no line
terminator; then materialize the lines, slicing the first line as
`line[len(bom.decode(encoding)):-1]` (the decoded BOM is the single
character U+FEFF) and every other line as `line[:-1]`. -/
def mkTextProcessor (label : List Char) (confidence : ℚ) (raw : List Char) :
    Except PyErr TPState :=
  if confidence < 9 / 10 then
    .error (.runtimeError (String.toList "Character detection not confident enough"))
  else if label = sigLabel ∨ label = asciiLabel then
    let utf8 := label = sigLabel
    match detectNewline raw with
    | none => .error (.runtimeError (String.toList "Unknown line endings"))
    | some nlChars =>
        let ls := pyLines (univNl raw)
        let data : List (List Char) :=
          match ls with
          | [] => []
          | first :: rest =>
              (if utf8 then (first.drop 1).dropLast else first.dropLast)
                :: rest.map List.dropLast
        .ok ⟨utf8, if utf8 then some bomUtf8 else none, encodeText utf8 nlChars, data⟩
  else .error (.runtimeError (String.toList "Unknown encoding"))

/-- The output side of the channel: the bytes written so far and the
`written_line` flag. -/
structure Writer where
  out : List ℕ
  writtenLine : Bool
deriving DecidableEq

/-- `TextProcessor.__enter__`: open the output file and write the BOM
bytes (when the source had one) before anything else. -/
def tpEnter (bom : Option (List ℕ)) : Writer := ⟨bom.getD [], false⟩

/-- `TextProcessor.write(text)`: the recorded newline bytes go out
first on every call except the very first, then the encoded line. -/
def tpWrite (nl : List ℕ) (enc : List Char → List ℕ) (w : Writer) (t : List Char) : Writer :=
  ⟨(if w.writtenLine then w.out ++ nl else w.out) ++ enc t, true⟩

/-- A whole sequence of `write` calls. -/
def writeAll (nl : List ℕ) (enc : List Char → List ℕ) (w : Writer)
    (ts : List (List Char)) : Writer :=
  ts.foldl (tpWrite nl enc) w

/-- `first ++ nl ++ second ++ nl ++ ... ++ last`: the separator before
every chunk except the first and nothing after the last. -/
def joinWith (nl : List ℕ) : List (List ℕ) → List ℕ
  | [] => []
  | x :: xs => x ++ (xs.map fun y => nl ++ y).flatten

/-! ## The substitution driver (`App.process_file`) -/

/-- The catalog (`self.changes`): macro name to `Action`. -/
def lookupAct : List (List Char × Action) → List Char → Option Action
  | [], _ => none
  | (k, a) :: t, nm => if k = nm then some a else lookupAct t nm

/-- One line of `App.process_file`: on a match, resolve the name (a
missing key warns — modelled as the name in the warning list — and
falls back to `ActionDefault`), compute the replacement and rebuild
the line as `start + str(value) + end`; otherwise pass the line
through.  A raised conversion/config error propagates. -/
def lineResult (changes : List (List Char × Action)) (line : List Char) :
    Except PyErr (List Char × List (List Char)) :=
  match pyMatch line with
  | none => .ok (line, [])
  | some m =>
      match lookupAct changes m.name with
      | some a =>
          (a.process m.name m.dflt).map fun v => (m.start ++ strOfValue v ++ m.after, [])
      | none =>
          (defaultAction.process m.name m.dflt).map fun v =>
            (m.start ++ strOfValue v ++ m.after, [m.name])

/-- What a run of `process_file` leaves on disk for one template. -/
inductive FileOutcome where
  | noFile (e : PyErr)
  | partialFile (written : List ℕ) (e : PyErr)
  | complete (bytes : List ℕ) (warnings : List (List Char))
deriving DecidableEq

/-- The per-line loop of `process_file`: process and write each line;
an exception leaves the output truncated at what was already written
(the `with` clause closes the handle, it does not remove the file). -/
def driveLines (changes : List (List Char × Action)) (nl : List ℕ)
    (enc : List Char → List ℕ) (w : Writer) (warns : List (List Char)) :
    List (List Char) → FileOutcome
  | [] => .complete w.out warns
  | l :: ls =>
      match lineResult changes l with
      | .error e => .partialFile w.out e
      | .ok (txt, ws) =>
          driveLines changes nl enc (tpWrite nl enc w txt) (warns ++ ws) ls

/-- `App.process_file` on one template: construct the `TextProcessor`
(any error here precedes `__enter__`, so no output file is created),
then open the output, write the BOM and drive the lines. -/
def processFileOutcome (changes : List (List Char × Action)) (label : List Char)
    (confidence : ℚ) (raw : List Char) : FileOutcome :=
  match mkTextProcessor label confidence raw with
  | .error e => .noFile e
  | .ok tp =>
      driveLines changes tp.newline (encodeText tp.utf8) (tpEnter tp.bom) [] tp.data

/-- `App.process_files` over a list of templates (each given as
detection label, confidence, raw characters): strictly sequential, and
the first uncaught exception aborts the whole run. -/
def processRun (changes : List (List Char × Action)) :
    List (List Char × ℚ × List Char) → Except PyErr (List (List ℕ × List (List Char)))
  | [] => .ok []
  | (label, conf, raw) :: rest =>
      match processFileOutcome changes label conf raw with
      | .noFile e => .error e
      | .partialFile _ e => .error e
      | .complete bs ws => (processRun changes rest).map fun os => (bs, ws) :: os

/-! ## Helper lemmas -/

/-- Numeric value carried by a `Value` (string values do not occur on
the numeric paths under study). -/
def Value.asQ : Value → ℚ
  | .vInt n => n
  | .vFloat q => q
  | .vStr _ => 0

theorem asQ_toValue (p : PyNum) : (p.toValue).asQ = p.toQ := by
  cases p <;> rfl

theorem writeAll_cons (nl : List ℕ) (enc : List Char → List ℕ) (w : Writer)
    (t : List Char) (ts : List (List Char)) :
    writeAll nl enc w (t :: ts) = writeAll nl enc (tpWrite nl enc w t) ts := rfl

theorem writeAll_out_true (nl : List ℕ) (enc : List Char → List ℕ) :
    ∀ (ts : List (List Char)) (out : List ℕ),
      (writeAll nl enc ⟨out, true⟩ ts).out = out ++ (ts.map fun t => nl ++ enc t).flatten
  | [], out => by simp [writeAll]
  | t :: ts, out => by
      rw [writeAll_cons]
      show (writeAll nl enc ⟨(out ++ nl) ++ enc t, true⟩ ts).out = _
      rw [writeAll_out_true nl enc ts ((out ++ nl) ++ enc t)]
      simp [List.append_assoc]

theorem splitFirstAt_of_not_mem {c : Char} : ∀ {l : List Char}, c ∉ l → splitFirstAt c l = none
  | [], _ => rfl
  | x :: xs, h => by
      have hx : x ≠ c := fun h0 => h (h0 ▸ List.mem_cons_self x xs)
      have ht : c ∉ xs := fun hm => h (List.mem_cons_of_mem _ hm)
      simp [splitFirstAt, hx, splitFirstAt_of_not_mem ht]

theorem splitFirstAt_append (c : Char) : ∀ {d : List Char} (e : List Char), c ∉ d →
    splitFirstAt c (d ++ c :: e) = some (d, e)
  | [], e, _ => by simp [splitFirstAt]
  | x :: xs, e, h => by
      have hx : x ≠ c := fun h0 => h (h0 ▸ List.mem_cons_self x xs)
      have ht : c ∉ xs := fun hm => h (List.mem_cons_of_mem _ hm)
      simp [splitFirstAt, hx, splitFirstAt_append c e ht]

theorem attemptAt_of_not_mem {rest : List Char} (h : '@' ∉ rest) : attemptAt rest = none := by
  unfold attemptAt
  split
  · rfl
  · split
    · rename_i x rest3 heq
      by_cases hx : x = '|'
      · have h3 : '@' ∉ rest3 := by
          intro hm
          have hmem : '@' ∈ rest.drop (rest.takeWhile isNameChar).length := by
            rw [heq]
            exact List.mem_cons_of_mem _ hm
          exact h (List.drop_subset _ _ hmem)
        simp [hx, splitFirstAt_of_not_mem h3]
      · simp [hx]
    · rfl

theorem macroCore_of_not_mem : ∀ {l : List Char}, '@' ∉ l → macroCore l = none
  | [], _ => rfl
  | c :: cs, h => by
      have hc : c ≠ '@' := fun h0 => h (h0 ▸ List.mem_cons_self c cs)
      have ht : '@' ∉ cs := fun hm => h (List.mem_cons_of_mem _ hm)
      unfold macroCore
      rw [macroCore_of_not_mem ht]
      simp [hc]

theorem macroCore_at_of_not_mem {suffix : List Char} (h : '@' ∉ suffix) :
    macroCore ('@' :: suffix) = none := by
  unfold macroCore
  rw [macroCore_of_not_mem h]
  simp [attemptAt_of_not_mem h]

theorem macroCore_append_none :
    ∀ {x : List Char} {l : List Char}, (∀ c ∈ x, c ≠ '@') → macroCore l = none →
      macroCore (x ++ l) = none
  | [], l, _, hl => by simpa using hl
  | c :: cs, l, h, hl => by
      have hc : c ≠ '@' := h c (List.mem_cons_self c cs)
      have ht : ∀ a ∈ cs, a ≠ '@' := fun a ha => h a (List.mem_cons_of_mem _ ha)
      show macroCore (c :: (cs ++ l)) = none
      unfold macroCore
      rw [macroCore_append_none ht hl]
      simp [hc]

theorem takeWhile_name {n : List Char} (r : List Char)
    (hn : ∀ c ∈ n, isNameChar c = true) :
    (n ++ '|' :: r).takeWhile isNameChar = n := by
  induction n with
  | nil => simp [List.takeWhile_cons, isNameChar]
  | cons c cs ih =>
      have hc := hn c (List.mem_cons_self c cs)
      have ht : ∀ a ∈ cs, isNameChar a = true := fun a ha => hn a (List.mem_cons_of_mem _ ha)
      simp [List.takeWhile_cons, hc, ih ht]

theorem attemptAt_span {n d suffix : List Char}
    (hn : n ≠ []) (hnc : ∀ c ∈ n, isNameChar c = true)
    (hd : '@' ∉ d) (hdn : '\n' ∉ d) (hsn : '\n' ∉ suffix) :
    attemptAt (n ++ '|' :: (d ++ '@' :: suffix)) = some ⟨[], n, d, suffix⟩ := by
  unfold attemptAt
  rw [takeWhile_name _ hnc, List.drop_left, if_neg hn]
  dsimp only
  rw [if_pos rfl, splitFirstAt_append '@' suffix hd]
  dsimp only
  simp [endGroup, hdn, hsn]

theorem macroCore_span {n d suffix : List Char}
    (hn : n ≠ []) (hnc : ∀ c ∈ n, isNameChar c = true)
    (hd : '@' ∉ d) (hdn : '\n' ∉ d) (hs : '@' ∉ suffix) (hsn : '\n' ∉ suffix) :
    macroCore ('@' :: (n ++ '|' :: (d ++ '@' :: suffix))) = some ⟨[], n, d, suffix⟩ := by
  have hnAt : ∀ c ∈ n, c ≠ '@' := fun c hc h0 => by
    have := hnc c hc
    rw [h0] at this
    simp [isNameChar] at this
  have htail : macroCore (n ++ '|' :: (d ++ '@' :: suffix)) = none := by
    have hx : ∀ c ∈ n ++ '|' :: d, c ≠ '@' := by
      intro c hc
      rcases List.mem_append.mp hc with h1 | h1
      · exact hnAt c h1
      · rcases List.mem_cons.mp h1 with h2 | h2
        · subst h2; decide
        · exact fun h0 => hd (h0 ▸ h2)
    have : (n ++ '|' :: d) ++ '@' :: suffix = n ++ '|' :: (d ++ '@' :: suffix) := by
      simp [List.append_assoc]
    rw [← this]
    exact macroCore_append_none hx (macroCore_at_of_not_mem hs)
  unfold macroCore
  rw [htail]
  simpa using attemptAt_span hn hnc hd hdn hsn

theorem macroCore_prepend :
    ∀ {a : List Char} {b : List Char} {m : MacroMatch}, '\n' ∉ a → macroCore b = some m →
      macroCore (a ++ b) = some ⟨a ++ m.start, m.name, m.dflt, m.after⟩
  | [], b, m, _, h => by simpa using h
  | c :: cs, b, m, ha, h => by
      have hc : c ≠ '\n' := fun h0 => ha (h0 ▸ List.mem_cons_self c cs)
      have ht : '\n' ∉ cs := fun hm => ha (List.mem_cons_of_mem _ hm)
      show macroCore (c :: (cs ++ b)) = _
      unfold macroCore
      rw [macroCore_prepend ht h]
      simp [hc]

theorem pyMatch_of_not_mem_nl {s : List Char} (h : '\n' ∉ s) : pyMatch s = macroCore s := by
  unfold pyMatch
  have h1 : s.getLast? ≠ some '\n' := fun hl => h (List.mem_of_getLast?_eq_some hl)
  simp [h1, h]

/-! ## Claims -/

instance {ε α : Type} [DecidableEq ε] [DecidableEq α] : DecidableEq (Except ε α) := fun a b =>
  match a, b with
  | .ok x, .ok y =>
      if h : x = y then .isTrue (by rw [h]) else .isFalse fun he => h (by injection he)
  | .error x, .error y =>
      if h : x = y then .isTrue (by rw [h]) else .isFalse fun he => h (by injection he)
  | .ok _, .error _ => .isFalse fun he => by injection he
  | .error _, .ok _ => .isFalse fun he => by injection he

attribute [local semireducible] Rat.mul Rat.add Rat.sub Rat.inv Rat.ofScientific

/-- C1: the spec claims every non-macro line survives the channel
byte-for-byte — including an unterminated final line.  The code slices
every line with `line[:-1]`; on a final line with no terminator that
removes the last *content* character, contradicting the code's own
goal of recreating files as identically as possible (and the comment
asserting the line ending is always present as a single `\n`).  On the
ASCII source `a\nb`, the final non-macro line `b` is read back as the
empty line and the file written is just `a\n` (bytes `[97, 10]`): the
byte `98` is lost. -/
theorem c1_unterminated_final_line_lost :
    pyMatch ['b'] = none ∧
    (mkTextProcessor asciiLabel 1 (String.toList "a\nb")).map TPState.data =
      .ok [['a'], []] ∧
    processFileOutcome [] asciiLabel 1 (String.toList "a\nb") = .complete [97, 10] [] := by
  decide

/-- C2: over any sequence of `write` calls, the channel emits the BOM
bytes (when the source had a BOM) first, the recorded newline bytes
immediately before every line except the first, and nothing after the
final line. -/
theorem c2_channel_output_layout (bom : Option (List ℕ)) (nl : List ℕ)
    (enc : List Char → List ℕ) (ts : List (List Char)) :
    (writeAll nl enc (tpEnter bom) ts).out = bom.getD [] ++ joinWith nl (ts.map enc) := by
  cases ts with
  | nil => simp [writeAll, tpEnter, joinWith]
  | cons t ts =>
      rw [writeAll_cons]
      show (writeAll nl enc ⟨bom.getD [] ++ enc t, true⟩ ts).out = _
      rw [writeAll_out_true]
      simp [joinWith, List.map_map, List.append_assoc, Function.comp_def]

/-- C3: when a line holds more than one `@name|default@` span, the
greedy `start` group absorbs everything up to the opening `@` of the
last valid span, so the name and default extracted are those of the
final span, and the single match is all the driver substitutes. -/
theorem c3_last_span_wins (p n1 d1 mid n2 d2 suffix : List Char)
    (hp : '\n' ∉ p) (hmid : '\n' ∉ mid)
    (hn1 : n1 ≠ []) (hn1c : ∀ c ∈ n1, isNameChar c = true)
    (hd1 : '@' ∉ d1) (hd1n : '\n' ∉ d1)
    (hn2 : n2 ≠ []) (hn2c : ∀ c ∈ n2, isNameChar c = true)
    (hd2 : '@' ∉ d2) (hd2n : '\n' ∉ d2)
    (hs : '@' ∉ suffix) (hsn : '\n' ∉ suffix) :
    pyMatch (p ++ '@' :: n1 ++ '|' :: d1 ++ '@' :: mid ++ '@' :: n2 ++ '|' :: d2 ++ '@' :: suffix) =
      some ⟨p ++ '@' :: n1 ++ '|' :: d1 ++ '@' :: mid, n2, d2, suffix⟩ := by
  have hnn1 : '\n' ∉ n1 := fun hm => absurd (hn1c _ hm) (by decide)
  have hnn2 : '\n' ∉ n2 := fun hm => absurd (hn2c _ hm) (by decide)
  have hnl : '\n' ∉ p ++ '@' :: n1 ++ '|' :: d1 ++ '@' :: mid ++ '@' :: n2 ++ '|' :: d2 ++ '@' :: suffix := by
    intro hm
    simp only [List.mem_append, List.mem_cons] at hm
    have c1 : ('\n' : Char) ≠ '@' := by decide
    have c2 : ('\n' : Char) ≠ '|' := by decide
    tauto
  have hnla : '\n' ∉ p ++ '@' :: n1 ++ '|' :: d1 ++ '@' :: mid := by
    intro hm
    simp only [List.mem_append, List.mem_cons] at hm
    have c1 : ('\n' : Char) ≠ '@' := by decide
    have c2 : ('\n' : Char) ≠ '|' := by decide
    tauto
  rw [pyMatch_of_not_mem_nl hnl]
  have hassoc : p ++ '@' :: n1 ++ '|' :: d1 ++ '@' :: mid ++ '@' :: n2 ++ '|' :: d2 ++ '@' :: suffix
      = (p ++ '@' :: n1 ++ '|' :: d1 ++ '@' :: mid) ++ '@' :: (n2 ++ '|' :: (d2 ++ '@' :: suffix)) := by
    simp [List.append_assoc]
  rw [hassoc, macroCore_prepend hnla (macroCore_span hn2 hn2c hd2 hd2n hs hsn)]
  simp

/-- Witness for C3 at the line `x@a|1@y@b|2@z`: the extracted macro is
`b` with default `2`, the earlier span `@a|1@` being absorbed into the
leading text. -/
theorem c3_last_span_wins_witness :
    pyMatch (String.toList "x@a|1@y@b|2@z") =
      some ⟨String.toList "x@a|1@y", ['b'], ['2'], ['z']⟩ :=
  c3_last_span_wins ['x'] ['a'] ['1'] ['y'] ['b'] ['2'] ['z']
    (by decide) (by decide) (by decide) (by decide) (by decide) (by decide)
    (by decide) (by decide) (by decide) (by decide) (by decide) (by decide)

/-- C4: for a parseable default, `ActionScaleInt` returns exactly
`floor(float(default) * scale + 0.5)`, and on a product landing
exactly on `x + 1/2` the result is `x + 1`: round-half-up, never
banker's rounding. -/
theorem c4_scale_int_half_up (sc q : ℚ) (nm d : List Char) (h : pyFloat? d = some q) :
    Action.process ⟨.scaleInt sc, false⟩ nm d = .ok (.vInt ⌊q * sc + 1 / 2⌋) ∧
    ∀ x : ℤ, q * sc = (x : ℚ) + 1 / 2 → ⌊q * sc + 1 / 2⌋ = x + 1 := by
  constructor
  · simp [Action.process, processRaw, floatConv, h, Except.bind]
  · intro x hx
    rw [hx, show (x : ℚ) + 1 / 2 + 1 / 2 = ((x + 1 : ℤ) : ℚ) by push_cast; ring]
    exact Int.floor_intCast _

/-- Witness for C4: default `5` scaled by `1.5` gives `7.5` and the
action returns `8`, not `7`. -/
theorem c4_scale_int_half_up_witness :
    pyFloat? (String.toList "5") = some 5 ∧
    Action.process ⟨.scaleInt (3 / 2), false⟩ [] (String.toList "5") = .ok (.vInt 8) := by
  have h : pyFloat? (String.toList "5") = some 5 := by decide
  have hc := c4_scale_int_half_up (3 / 2) 5 [] (String.toList "5") h
  refine ⟨h, hc.1.trans ?_⟩
  rw [hc.2 7 (by norm_num)]
  norm_num

/-- C5: a matched macro whose name is missing from the catalog falls
back to `ActionDefault`: the output line is the leading text, the
literal default and the trailing text, the name is recorded as a
warning, and the per-line loop continues with the remaining lines
instead of aborting. -/
theorem c5_missing_key_fallback (changes : List (List Char × Action)) (line : List Char)
    (m : MacroMatch) (h1 : pyMatch line = some m) (h2 : lookupAct changes m.name = none) :
    lineResult changes line = .ok (m.start ++ m.dflt ++ m.after, [m.name]) ∧
    ∀ (nl : List ℕ) (enc : List Char → List ℕ) (w : Writer) (warns rest : List (List Char)),
      driveLines changes nl enc w warns (line :: rest) =
        driveLines changes nl enc (tpWrite nl enc w (m.start ++ m.dflt ++ m.after))
          (warns ++ [m.name]) rest := by
  have hl : lineResult changes line = .ok (m.start ++ m.dflt ++ m.after, [m.name]) := by
    simp [lineResult, h1, h2, defaultAction, Action.process, strOfValue, Except.map]
  refine ⟨hl, fun nl enc w warns rest => ?_⟩
  have hstep : driveLines changes nl enc w warns (line :: rest) =
      match lineResult changes line with
      | .error e => .partialFile w.out e
      | .ok (txt, ws) => driveLines changes nl enc (tpWrite nl enc w txt) (warns ++ ws) rest :=
    rfl
  rw [hstep, hl]

/-- Witness for C5 at the scenario line `Chance=@unknown_macro|7@`
with an empty catalog: output `Chance=7`, warning `unknown_macro`. -/
theorem c5_missing_key_fallback_witness :
    pyMatch (String.toList "Chance=@unknown_macro|7@") =
      some ⟨String.toList "Chance=", String.toList "unknown_macro", ['7'], []⟩ ∧
    lineResult [] (String.toList "Chance=@unknown_macro|7@") =
      .ok (String.toList "Chance=7", [String.toList "unknown_macro"]) := by
  have h1 : pyMatch (String.toList "Chance=@unknown_macro|7@") =
      some ⟨String.toList "Chance=", String.toList "unknown_macro", ['7'], []⟩ := by decide
  have h2 : lookupAct [] (String.toList "unknown_macro") = none := by decide
  have hc := c5_missing_key_fallback [] (String.toList "Chance=@unknown_macro|7@")
    ⟨String.toList "Chance=", String.toList "unknown_macro", ['7'], []⟩ h1 h2
  exact ⟨h1, hc.1⟩

/-- C6 counterexample: the claim quantifies over *every* default text,
but on a default that does not parse as a float — here `oops` — the
`fishing_chance` branch raises `ValueError` inside `float(default)`
and returns no value at all, clamped or otherwise. -/
theorem c6_floorclamp_counterexample :
    Action.process ⟨.fishing (.pint 1) (.pint 1), false⟩ fChance (String.toList "oops") =
      .error (.valueError (String.toList "oops")) := by
  decide

/-- C6 as amended: for every default text that parses as the required
numeric type, `fishing_chance` yields `max(float(default), min_chance)`,
never below the floor, and `fishing_room_space` yields
`min(int(default), min_rooms)`, never above the cap. -/
theorem c6_floorclamp_clamps (mc mr : PyNum) (d : List Char) :
    (∀ q : ℚ, pyFloat? d = some q →
       ∃ v, Action.process ⟨.fishing mc mr, false⟩ fChance d = .ok v ∧
         v.asQ = max q mc.toQ ∧ mc.toQ ≤ v.asQ) ∧
    (∀ n : ℤ, pyInt? d = some n →
       ∃ v, Action.process ⟨.fishing mc mr, false⟩ fSpace d = .ok v ∧
         v.asQ = min (n : ℚ) mr.toQ ∧ v.asQ ≤ mr.toQ) := by
  have hne : fSpace ≠ fChance := by decide
  constructor
  · intro q hq
    by_cases hcmp : mc.toQ ≤ q
    · refine ⟨.vFloat q, ?_, ?_, ?_⟩
      · simp [Action.process, processRaw, floatConv, hq, hcmp, Except.bind]
      · simp [Value.asQ, max_eq_left hcmp]
      · simpa [Value.asQ] using hcmp
    · have hlt : q ≤ mc.toQ := le_of_lt (lt_of_not_le hcmp)
      refine ⟨mc.toValue, ?_, ?_, ?_⟩
      · simp [Action.process, processRaw, floatConv, hq, hcmp, Except.bind]
      · rw [asQ_toValue, max_eq_right hlt]
      · rw [asQ_toValue]
  · intro n hn
    by_cases hcmp : (n : ℚ) ≤ mr.toQ
    · refine ⟨.vInt n, ?_, ?_, ?_⟩
      · simp [Action.process, processRaw, intConv, hn, hne, hcmp, Except.bind]
      · simp [Value.asQ, min_eq_left hcmp]
      · simpa [Value.asQ] using hcmp
    · have hlt : mr.toQ ≤ (n : ℚ) := le_of_lt (lt_of_not_le hcmp)
      refine ⟨mr.toValue, ?_, ?_, ?_⟩
      · simp [Action.process, processRaw, intConv, hn, hne, hcmp, Except.bind]
      · rw [asQ_toValue, min_eq_right hlt]
      · rw [asQ_toValue]

/-- Witness for the amended C6 at the spec scenario: default `0.1`
with `min_chance = 1` — the configured bound wins and the result is
the int `1` (Python `max` returns its second argument here), which is
`max(0.1, 1)` and at least the floor. -/
theorem c6_floorclamp_clamps_witness :
    pyFloat? (String.toList "0.1") = some (1 / 10) ∧
    ∃ v, Action.process ⟨.fishing (.pint 1) (.pint 1), false⟩ fChance (String.toList "0.1") =
        .ok v ∧ v.asQ = max (1 / 10 : ℚ) ((PyNum.pint 1).toQ) ∧
        (PyNum.pint 1).toQ ≤ v.asQ :=
  ⟨by decide, (c6_floorclamp_clamps (.pint 1) (.pint 1) (String.toList "0.1")).1
    (1 / 10) (by decide)⟩

/-- C7 counterexample: the claim says the scaled float is rendered
with fixed precision (exactly `precision` decimal places).  With the
catalog's `damage_scale_float` (scale 1.3, precision 6) and default
`10`, the computed value is `13.0` and the driver writes `Cost=13.0;`:
one decimal place shown, not six.  Fixed-precision formatting appears
only in the action's `_desc` string, never in the output path. -/
theorem c7_fixed_precision_counterexample :
    lineResult [(String.toList "damage_scale_float", mkScaleFloat (13 / 10) false 6 false)]
        (String.toList "Cost=@damage_scale_float|10@;") =
      .ok (String.toList "Cost=13.0;", []) ∧
    decimalCount (pyFloatStr (roundDec 6 ((10 : ℚ) * (13 / 10)))) = 1 := by
  decide

/-- C7 as amended: for a parseable default, `ActionScaleFloat` returns
`round(float(default) * scale, precision)` and the driver renders it
with Python's default `str()` (shortest decimal form, no padding to a
fixed number of decimal places). -/
theorem c7_scale_float_shortest_format (changes : List (List Char × Action))
    (line : List Char) (m : MacroMatch) (sc : ℚ) (p : ℕ) (q : ℚ)
    (h1 : pyMatch line = some m)
    (h2 : lookupAct changes m.name = some ⟨.scaleFloat sc p, false⟩)
    (h3 : pyFloat? m.dflt = some q) :
    lineResult changes line =
      .ok (m.start ++ pyFloatStr (roundDec p (q * sc)) ++ m.after, []) := by
  simp [lineResult, h1, h2, Action.process, processRaw, floatConv, h3, strOfValue,
    Except.map, Except.bind]

/-- Witness for the amended C7: default `10`, scale `1.3`,
precision 6 — the line comes out as `Dmg=13.0!`. -/
theorem c7_scale_float_shortest_format_witness :
    pyMatch (String.toList "Dmg=@damage_scale_float|10@!") =
      some ⟨String.toList "Dmg=", String.toList "damage_scale_float",
        String.toList "10", ['!']⟩ ∧
    lineResult [(String.toList "damage_scale_float", ⟨.scaleFloat (13 / 10) 6, false⟩)]
        (String.toList "Dmg=@damage_scale_float|10@!") =
      .ok (String.toList "Dmg=13.0!", []) := by
  have h1 : pyMatch (String.toList "Dmg=@damage_scale_float|10@!") =
      some ⟨String.toList "Dmg=", String.toList "damage_scale_float",
        String.toList "10", ['!']⟩ := by decide
  have hc := c7_scale_float_shortest_format
    [(String.toList "damage_scale_float", ⟨.scaleFloat (13 / 10) 6, false⟩)]
    (String.toList "Dmg=@damage_scale_float|10@!")
    ⟨String.toList "Dmg=", String.toList "damage_scale_float", String.toList "10", ['!']⟩
    (13 / 10) 6 10 h1 (by decide) (by decide)
  exact ⟨h1, hc.trans (by decide)⟩

/-- C8 counterexample: the claim says every name inside the enumerated
set returns a value with no error; but `fishing_chance` — inside the
set — with the empty default raises `ValueError` from
`float(default)` before any value is produced. -/
theorem c8_dispatch_counterexample :
    Action.process ⟨.fishing (.pint 1) (.pint 1), false⟩ fChance [] =
      .error (.valueError []) := by
  decide

/-- C8 as amended: `ActionGodMode._process` dispatches on exactly
three names and `ActionFishingChance._process` on exactly two; any
other name raises a fatal `RuntimeError`.  Inside the sets, god mode
always returns a value (given the nonzero step count its constructor
requires to divide by), and fishing returns a value whenever the
default parses as the required numeric type. -/
theorem c8_enumerated_dispatch (sp ep : ℚ) (st : ℤ) (mc mr : PyNum) (nm d : List Char)
    (hst : st ≠ 0) :
    ((nm = gmBase ∨ nm = gmPer ∨ nm = gmCap) →
        ∃ v, Action.process ⟨.godMode sp ep st, false⟩ nm d = .ok v) ∧
    (nm ≠ gmBase → nm ≠ gmPer → nm ≠ gmCap →
        ∃ msg, Action.process ⟨.godMode sp ep st, false⟩ nm d = .error (.runtimeError msg)) ∧
    (∀ q : ℚ, pyFloat? d = some q →
        ∃ v, Action.process ⟨.fishing mc mr, false⟩ fChance d = .ok v) ∧
    (∀ n : ℤ, pyInt? d = some n →
        ∃ v, Action.process ⟨.fishing mc mr, false⟩ fSpace d = .ok v) ∧
    (nm ≠ fChance → nm ≠ fSpace →
        ∃ msg, Action.process ⟨.fishing mc mr, false⟩ nm d = .error (.runtimeError msg)) := by
  have hne : fSpace ≠ fChance := by decide
  refine ⟨?_, ?_, ?_, ?_, ?_⟩
  · rintro (h | h | h) <;> subst h
    · exact ⟨.vFloat sp, by simp [Action.process, processRaw]⟩
    · refine ⟨.vFloat (roundDec 6 ((ep - sp) / (st : ℚ))), ?_⟩
      simp [Action.process, processRaw, show gmPer ≠ gmBase by decide]
    · refine ⟨.vInt st, ?_⟩
      simp [Action.process, processRaw, show gmCap ≠ gmBase by decide,
        show gmCap ≠ gmPer by decide]
  · intro h1 h2 h3
    refine ⟨String.toList "Unknown GodMode macro name: " ++ nm, ?_⟩
    simp [Action.process, processRaw, h1, h2, h3]
  · intro q hq
    by_cases hcmp : mc.toQ ≤ q
    · exact ⟨.vFloat q, by simp [Action.process, processRaw, floatConv, hq, hcmp, Except.bind]⟩
    · exact ⟨mc.toValue, by simp [Action.process, processRaw, floatConv, hq, hcmp, Except.bind]⟩
  · intro n hn
    by_cases hcmp : (n : ℚ) ≤ mr.toQ
    · exact ⟨.vInt n, by simp [Action.process, processRaw, intConv, hn, hne, hcmp, Except.bind]⟩
    · exact ⟨mr.toValue, by simp [Action.process, processRaw, intConv, hn, hne, hcmp, Except.bind]⟩
  · intro h1 h2
    refine ⟨String.toList "Unknown Fishing macro name: " ++ nm, ?_⟩
    simp [Action.process, processRaw, h1, h2]

/-- Witness for the amended C8 at the shipped configuration (god mode
0.6 → 0 over 30 steps): `godmode_base_scale` is in the set and yields
a value. -/
theorem c8_enumerated_dispatch_witness :
    (30 : ℤ) ≠ 0 ∧
    ∃ v, Action.process ⟨.godMode (3 / 5) 0 30, false⟩ gmBase [] = .ok v :=
  ⟨by decide, (c8_enumerated_dispatch (3 / 5) 0 30 (.pint 1) (.pint 1) gmBase []
    (by decide)).1 (Or.inl rfl)⟩

/-- C9: a detected label outside the two supported ones, or detection
confidence below 0.9, makes `TextProcessor.__init__` raise before
`__enter__` ever runs, so the destination file is never created. -/
theorem c9_no_output_on_encoding_error (changes : List (List Char × Action))
    (label : List Char) (conf : ℚ) (raw : List Char)
    (h : (label ≠ sigLabel ∧ label ≠ asciiLabel) ∨ conf < 9 / 10) :
    ∃ e, processFileOutcome changes label conf raw = .noFile e := by
  by_cases hc : conf < 9 / 10
  · refine ⟨.runtimeError (String.toList "Character detection not confident enough"), ?_⟩
    unfold processFileOutcome mkTextProcessor
    simp [hc]
  · rcases h with ⟨h1, h2⟩ | h3
    · refine ⟨.runtimeError (String.toList "Unknown encoding"), ?_⟩
      unfold processFileOutcome mkTextProcessor
      have hor : ¬(label = sigLabel ∨ label = asciiLabel) := by tauto
      simp [hc, hor]
    · exact absurd h3 hc

/-- Witness for C9 at the spec scenario: a file detected as `UTF-16`
(with full confidence) produces no output file. -/
theorem c9_no_output_on_encoding_error_witness :
    (String.toList "UTF-16" ≠ sigLabel ∧ String.toList "UTF-16" ≠ asciiLabel) ∧
    ∃ e, processFileOutcome [] (String.toList "UTF-16") 1 (String.toList "a\n") =
      .noFile e :=
  ⟨⟨by decide, by decide⟩, c9_no_output_on_encoding_error [] (String.toList "UTF-16") 1
    (String.toList "a\n") (Or.inl ⟨by decide, by decide⟩)⟩

/-- C10: the numeric transformations are partial in the default text.
The template line `@damage_scale|@B` matches with the empty default,
`float('')` has no value, and the run on a two-file batch aborts with
an uncaught `ValueError` after writing only the first line of the
first file: the second file is never processed, and no error category
recovers from the malformed default. -/
theorem c10_malformed_default_aborts_run :
    pyMatch (String.toList "@damage_scale|@B") =
      some ⟨[], String.toList "damage_scale", [], ['B']⟩ ∧
    pyFloat? [] = none ∧
    processFileOutcome [(String.toList "damage_scale", mkScaleInt (13 / 10) false false)]
        asciiLabel 1 (String.toList "A\n@damage_scale|@B\nC") =
      .partialFile [65] (.valueError []) ∧
    processRun [(String.toList "damage_scale", mkScaleInt (13 / 10) false false)]
        [(asciiLabel, 1, String.toList "A\n@damage_scale|@B\nC"),
         (asciiLabel, 1, String.toList "D\nE")] = .error (.valueError []) := by
  decide

end HadesCheat
